import Mathlib

/-!
# Verification of the turbo-tasks backend (persistent incremental task-graph engine)

Shallow embedding, in Lean 4, of the parts of
`turbopack/crates/turbo-tasks-backend` that the checked claims are about:

* the read path `try_read_task_output` / `try_read_task_cell`
  (`src/backend/mod.rs`);
* the operations `UpdateOutputOperation`, `InvalidateOperation`,
  `UpdateCellOperation` (`src/backend/operation/*.rs`);
* the completion handler `task_execution_completed` (`src/backend/mod.rs`);
* the snapshot coordinator `snapshot` / `run_backend_job`
  (`src/backend/mod.rs`);
* the startup-cache record codec `write_key_value_pair` /
  `read_key_value_pair` (`src/database/startup_cache.rs`);
* `get_or_create_transient_task` (`src/backend/mod.rs`).

Each task's storage is modelled as an explicit record of the items the
functions under scrutiny read and write; machine integers are `Nat`/`Int`
(with explicit `% 2 ^ 32` where the Rust code truncates); Rust `Result`s,
`bail!` and `panic!` paths are modelled by `Option`/sum results.
The definitions are translated from the source files; the few helpers whose
source file is not part of the provided sources (e.g. `DirtyState::get` from
`data.rs`, `make_task_dirty_internal` from the current `invalidate.rs`) are
modelled from the specification and say so in their doc comment.
-/

namespace TurboTasks

/-- A cell address inside one task: `CellId { type_id, index }`. -/
structure CellId where
  typeId : Nat
  index : Nat
deriving DecidableEq, Repr

/-- A cell of some task: `CellRef { task, cell }`. -/
structure CellRef where
  task : Nat
  cell : CellId
deriving DecidableEq, Repr

/-- `InProgressState` from `data.rs`: `Scheduled { done_event }` or
`InProgress { stale, once_task, done_event, session_dependent }`.
The `done_event` is modelled by an identifier so that "the same event" is
expressible. -/
inductive InProgressState where
  | scheduled (doneEvent : Nat)
  | inProgress (stale : Bool) (onceTask : Bool) (doneEvent : Nat)
      (sessionDependent : Bool)
deriving DecidableEq, Repr

/-- `OutputValue` from `data.rs`: a task output is a cell reference, a
reference to another task's output, an error or a panic. -/
inductive OutputValue where
  | cell (c : CellRef)
  | output (task : Nat)
  | error
  | panic
deriving DecidableEq, Repr

/-- `RawVc` (the variants that can be an output of a task). -/
inductive RawVc where
  | taskOutput (task : Nat)
  | taskCell (task : Nat) (cell : CellId)
deriving DecidableEq, Repr

/-- Modelled from the spec: `DirtyState { clean_in_session? }` (`data.rs` is
not among the provided sources).  The spec describes the `Dirty` item as
session scoped: a task whose `Dirty` item carries `clean_in_session = s` is
clean in session `s` and dirty in every other session. -/
structure DirtyState where
  cleanInSession : Option Nat
deriving DecidableEq, Repr

/-- Modelled from the spec: `DirtyState::get(session)` is true when the
`Dirty` item is effective in `session`, i.e. when the task was not marked
session-scoped clean for precisely this session. -/
def DirtyState.get (d : DirtyState) (session : Nat) : Bool :=
  d.cleanInSession ≠ some session

/-- Modelled from the spec: the value of `AggregatedDirtyContainerCount`.
The spec describes it as a signed count of dirty descendants, with a
session-scoped override mirroring session-scoped clean marks. -/
structure DirtyContainerCount where
  count : Int
  countInSession : Option (Nat × Int)
deriving DecidableEq, Repr

instance : Inhabited DirtyContainerCount := ⟨⟨0, none⟩⟩

/-- Modelled from the spec: `DirtyContainerCount::get(session)` — the
session override applies when it names the current session, otherwise the
plain count applies. -/
def DirtyContainerCount.get (c : DirtyContainerCount) (session : Nat) : Int :=
  match c.countInSession with
  | some (s, n) => if s = session then n else c.count
  | none => c.count

/-! ## Read path: `try_read_task_output` (`backend/mod.rs`)

The per-task state below holds exactly the items this function reads or
writes.  The strong-consistency branch first raises the task to an
aggregation root (`AggregationUpdateJob::UpdateAggregationNumber` in a
loop); the state modelled here is the state observed after that loop, when
the dirty flags and the aggregated dirty count are read.  Dependency-edge
bookkeeping on the reader task (`OutputDependent`/`OutputDependency`) only
touches the reader's storage and is outside this single-task state. -/

/-- The items of one task that `try_read_task_output` touches. -/
structure OutputReadState where
  inProgress : Option InProgressState
  dirty : Option DirtyState
  aggregatedDirtyContainerCount : Option DirtyContainerCount
  aggregateRoot : Bool
  output : Option OutputValue
  /-- whether an `Error(SharedError)` item is stored -/
  errorItem : Bool
deriving DecidableEq, Repr

/-- What `try_read_task_output` hands back to the caller. -/
inductive ReadOutputResult where
  /-- `Ok(Ok(raw_vc))`: the memoized output value. -/
  | value (v : RawVc)
  /-- `Err(error)`: the stored `Error` item surfaced to the reader. -/
  | errorResult
  /-- `Ok(Err(listener))` on the `done_event` of the in-progress state. -/
  | doneEventListener (doneEvent : Nat)
  /-- `Ok(Err(listener))` on the aggregate root's `all_clean_event`. -/
  | allCleanEventListener
  /-- `Ok(Err(listener))` on a freshly inserted `InProgress::Scheduled`. -/
  | scheduledListener
deriving DecidableEq, Repr

/-- `ReadConsistency` from the backend API. -/
inductive ReadConsistency where
  | eventual
  | strong
deriving DecidableEq, Repr

/-- Outcome of a read: the returned value, the task's state afterwards, and
whether `turbo_tasks.schedule(task_id)` was called. -/
structure ReadOutputOutcome where
  result : ReadOutputResult
  state : OutputReadState
  scheduled : Bool
deriving DecidableEq, Repr

/-- `get!(task, Dirty).map_or(false, |d| d.get(session_id))`: the
session-effective dirty flag of the task. -/
def OutputReadState.isDirtyIn (st : OutputReadState) (session : Nat) : Bool :=
  match st.dirty with
  | some d => d.get session
  | none => false

/-- `get!(task, AggregatedDirtyContainerCount).cloned().unwrap_or_default()
.get(session_id)`: the session-effective aggregated dirty count. -/
def OutputReadState.dirtyCountIn (st : OutputReadState) (session : Nat) : Int :=
  (st.aggregatedDirtyContainerCount.getD default).get session

/-- `TurboTasksBackendInner::try_read_task_output` (`backend/mod.rs`):

1. if an `InProgress` item exists, return a listener on its `done_event`;
2. under `ReadConsistency::Strong` (after the task has been raised to an
   aggregation root), read the session-effective dirty flag and the
   session-effective `AggregatedDirtyContainerCount`; when the count is
   positive or the task is dirty, make sure an `AggregateRoot` item exists
   and return a listener on its `all_clean_event`;
3. if an `Output` item exists, return its value — except that an `Error` or
   `Panic` output without a stored `Error` item produces no result and
   falls through;
4. otherwise insert `InProgress::Scheduled` (fresh `done_event`
   `newDoneEvent`), schedule the task and return the listener. -/
def try_read_task_output (session : Nat) (consistency : ReadConsistency)
    (newDoneEvent : Nat) (st : OutputReadState) : ReadOutputOutcome :=
  match st.inProgress with
  | some (.scheduled e) => ⟨.doneEventListener e, st, false⟩
  | some (.inProgress _ _ e _) => ⟨.doneEventListener e, st, false⟩
  | none =>
    let isDirty := st.isDirtyIn session
    let dirtyTasks := st.dirtyCountIn session
    if consistency = .strong ∧ (0 < dirtyTasks ∨ isDirty = true) then
      -- attach an `AggregateRoot` when absent; listener on `all_clean_event`
      ⟨.allCleanEventListener, { st with aggregateRoot := true }, false⟩
    else
      match st.output with
      | some (.cell c) => ⟨.value (.taskCell c.task c.cell), st, false⟩
      | some (.output t) => ⟨.value (.taskOutput t), st, false⟩
      | some .error =>
        if st.errorItem then ⟨.errorResult, st, false⟩
        else
          ⟨.scheduledListener,
            { st with inProgress := some (.scheduled newDoneEvent) }, true⟩
      | some .panic =>
        if st.errorItem then ⟨.errorResult, st, false⟩
        else
          ⟨.scheduledListener,
            { st with inProgress := some (.scheduled newDoneEvent) }, true⟩
      | none =>
        ⟨.scheduledListener,
          { st with inProgress := some (.scheduled newDoneEvent) }, true⟩

end TurboTasks

namespace TurboTasks

/-- C1, counterexample to the claim as stated: a task that is `InProgress`
and at the same time dirty with a positive aggregated dirty count.  The
claim demands that whenever the aggregated dirty count is positive or the
task is dirty, a strong read returns a listener on the root's
`all_clean_event`; the code instead returns first, at step 1, a listener on
the `done_event` of the in-progress state. -/
theorem try_read_task_output_strong_dirty_inprogress_not_all_clean :
    let st : OutputReadState :=
      { inProgress := some (.scheduled 5), dirty := some ⟨none⟩,
        aggregatedDirtyContainerCount := some ⟨1, none⟩,
        aggregateRoot := false, output := none, errorItem := false }
    0 < st.dirtyCountIn 0 ∧ st.isDirtyIn 0 = true ∧
      (try_read_task_output 0 .strong 9 st).result ≠ .allCleanEventListener := by
  refine ⟨by decide, by decide, by decide⟩

/-- C1 (amended): for a strong read, (1) whenever the call returns a value,
the task carries no session-effective `Dirty` item and (granted the
invariant that the aggregated dirty count is never negative) its
`AggregatedDirtyContainerCount` for the current session is `0`; (2) whenever
the task is **not `InProgress`** and the aggregated dirty count is positive
or the task is dirty, the call returns a listener on the root's
`all_clean_event` (an `InProgress` task instead gets a listener on
`done_event`, see the counterexample). -/
theorem try_read_task_output_strong_clean (session newDoneEvent : Nat)
    (st : OutputReadState) (hcount : 0 ≤ st.dirtyCountIn session) :
    (∀ v, (try_read_task_output session .strong newDoneEvent st).result =
        .value v →
      st.isDirtyIn session = false ∧ st.dirtyCountIn session = 0) ∧
    (st.inProgress = none →
      (0 < st.dirtyCountIn session ∨ st.isDirtyIn session = true) →
      (try_read_task_output session .strong newDoneEvent st).result =
        .allCleanEventListener) := by
  constructor
  · intro v h
    unfold try_read_task_output at h
    rcases hip : st.inProgress with _ | ip
    · rw [hip] at h
      simp only at h
      by_cases hc : 0 < st.dirtyCountIn session ∨ st.isDirtyIn session = true
      · rw [if_pos ⟨by trivial, hc⟩] at h
        simp at h
      · push_neg at hc
        exact ⟨by simpa using hc.2, le_antisymm hc.1 hcount⟩
    · rw [hip] at h
      cases ip <;> simp at h
  · intro hip hc
    unfold try_read_task_output
    rw [hip]
    simp only
    rw [if_pos ⟨by trivial, hc⟩]

/-- C1 witness: the amended theorem applied to a concrete clean task under
a strong read: it returns the stored output value. -/
theorem try_read_task_output_strong_clean_witness :
    let st : OutputReadState :=
      { inProgress := none, dirty := none,
        aggregatedDirtyContainerCount := none, aggregateRoot := false,
        output := some (.output 3), errorItem := false }
    st.isDirtyIn 0 = false ∧ st.dirtyCountIn 0 = 0 := by
  intro st
  exact (try_read_task_output_strong_clean 0 9 st (by decide)).1
    (.taskOutput 3) (by decide)

/-- C10: a task whose `Output` item is `Error` or `Panic` but which stores
no `Error` item does not surface an error to the caller: the read falls
through, inserts `InProgress::Scheduled`, schedules the task and returns
the fresh listener (provided the call reaches the output inspection, i.e.
the task is not `InProgress` and a strong read sees it clean). -/
theorem try_read_task_output_error_without_item (session newDoneEvent : Nat)
    (consistency : ReadConsistency) (st : OutputReadState)
    (hip : st.inProgress = none)
    (hout : st.output = some .error ∨ st.output = some .panic)
    (herr : st.errorItem = false)
    (hclean : ¬(0 < st.dirtyCountIn session ∨ st.isDirtyIn session = true)) :
    (try_read_task_output session consistency newDoneEvent st).result =
        .scheduledListener ∧
    (try_read_task_output session consistency newDoneEvent st).state.inProgress
        = some (.scheduled newDoneEvent) ∧
    (try_read_task_output session consistency newDoneEvent st).scheduled
        = true := by
  unfold try_read_task_output
  rw [hip]
  simp only
  rw [if_neg (by intro h; exact hclean h.2)]
  rcases hout with h | h <;> rw [h] <;> simp [herr]

/-- C10 witness: the theorem applied to a concrete task with
`Output = Error` and no `Error` item. -/
theorem try_read_task_output_error_without_item_witness :
    let st : OutputReadState :=
      { inProgress := none, dirty := none,
        aggregatedDirtyContainerCount := none, aggregateRoot := false,
        output := some .error, errorItem := false }
    (try_read_task_output 0 .eventual 7 st).result = .scheduledListener ∧
    (try_read_task_output 0 .eventual 7 st).state.inProgress =
        some (.scheduled 7) ∧
    (try_read_task_output 0 .eventual 7 st).scheduled = true := by
  intro st
  exact try_read_task_output_error_without_item 0 7 .eventual st rfl
    (Or.inl rfl) rfl (by decide)

/-! ## Invalidation: `make_task_dirty` / `make_task_dirty_internal`

`update_output.rs` imports `make_task_dirty_internal` from
`operation/invalidate.rs`, but the provided `invalidate.rs` is an older
revision that predates both this helper and the `stale` flag handling.  The
helper is therefore modelled from the specification: marking a task dirty
is a no-op when it already carries `Dirty`, otherwise it inserts `Dirty`
and pushes a `DataUpdate` aggregation job; and "while a task is
`InProgress`, any invalidation sets `stale = true`". -/

/-- The two items of a task that dirty-marking touches. -/
structure TaskDirtyView where
  inProgress : Option InProgressState
  dirty : Option DirtyState
deriving DecidableEq, Repr

/-- Modelled from the spec: `make_task_dirty_internal(task, task_id,
make_stale, queue, ctx)` (absent from the provided sources; only its
callers in `update_output.rs` are present).  When `make_stale` holds and
the task is `InProgress::InProgress`, its `stale` flag is set; then, unless
the task already carries a `Dirty` item, `Dirty` is inserted and a
`DataUpdate` job is pushed onto the aggregation queue (the returned
`Bool`). -/
def make_task_dirty_internal (makeStale : Bool) (v : TaskDirtyView) :
    TaskDirtyView × Bool :=
  let v1 :=
    if makeStale then
      match v.inProgress with
      | some (.inProgress _ once e sd) =>
        { v with inProgress := some (.inProgress true once e sd) }
      | _ => v
    else v
  if v1.dirty.isSome then (v1, false)
  else ({ v1 with dirty := some ⟨none⟩ }, true)

/-- Modelled from the spec: the current `make_task_dirty` (the entry point
used by `InvalidateOperation`) forwards to `make_task_dirty_internal` with
`make_stale = true`. -/
def make_task_dirty (v : TaskDirtyView) : TaskDirtyView × Bool :=
  make_task_dirty_internal true v

/-! ## `UpdateOutputOperation::run` (`backend/operation/update_output.rs`) -/

/-- The items of one task that `UpdateOutputOperation::run` touches, plus
the edge lists the continuation states of the operation walk. -/
structure OutputUpdateState where
  inProgress : Option InProgressState
  /-- payload of the `Error(SharedError)` item, when present -/
  errorItem : Option Nat
  output : Option OutputValue
  /-- readers holding an `OutputDependent` edge on this task -/
  outputDependent : List Nat
  /-- `Child` edges of this task -/
  children : List Nat
  dirty : Option DirtyState
deriving DecidableEq, Repr

/-- The `Result<Result<RawVc>, Option<Cow<str>>>` argument of `run` (the
`LocalCell`/`LocalOutput` variants, which can never be produced as task
results and make the code panic, are left out). -/
inductive TaskResult where
  | okOutput (task : Nat)
  | okCell (task : Nat) (cell : CellId)
  | err (msg : Nat)
  | panicked (msg : Nat)
deriving DecidableEq, Repr

/-- Outcome of `UpdateOutputOperation::run`: the task's state, whether the
operation returned early, the `dependent_tasks` and `children` lists handed
to the `MakeDependentTasksDirty` continuation (empty on an early return —
no dependent is made dirty), and whether `make_task_dirty_internal` pushed
a `DataUpdate` aggregation job for the task itself. -/
structure UpdateOutputOutcome where
  state : OutputUpdateState
  earlyReturn : Bool
  dependentTasksToDirty : List Nat
  childrenToCheck : List Nat
  selfDirtyJobPushed : Bool
deriving DecidableEq, Repr

/-- The tail of `UpdateOutputOperation::run` shared by the four non-early
branches of the `match`: store the new output value, snapshot the
`OutputDependent` and `Child` edges, and run `make_task_dirty_internal`
with `make_stale = false` on the task itself. -/
def update_output_publish (v : OutputValue) (st : OutputUpdateState) :
    UpdateOutputOutcome :=
  let st1 := { st with output := some v }
  let r := make_task_dirty_internal false ⟨st1.inProgress, st1.dirty⟩
  ⟨{ st1 with inProgress := r.1.inProgress, dirty := r.1.dirty }, false,
    st1.outputDependent, st1.children, r.2⟩

/-- `UpdateOutputOperation::run` (`update_output.rs`):

1. when the task is `InProgress` with `stale = true`, return without
   touching anything;
2. remove the old `Error` item;
3. when the new result equals the stored `Output` (same `TaskOutput` task
   id, or same `TaskCell` task id and cell), return early;
4. otherwise store the error payload for `Err`/panic results, store the new
   `Output` value, and fall into the `MakeDependentTasksDirty` machinery
   with the task's `OutputDependent` and `Child` edges. -/
def UpdateOutputOperation_run (result : TaskResult)
    (st : OutputUpdateState) : UpdateOutputOutcome :=
  match st.inProgress with
  | some (.inProgress true _ _ _) => ⟨st, true, [], [], false⟩
  | _ =>
    let st1 := { st with errorItem := none }
    match result with
    | .okOutput t =>
      if st1.output = some (.output t) then ⟨st1, true, [], [], false⟩
      else update_output_publish (.output t) st1
    | .okCell t c =>
      if st1.output = some (.cell ⟨t, c⟩) then ⟨st1, true, [], [], false⟩
      else update_output_publish (.cell ⟨t, c⟩) st1
    | .err m => update_output_publish .error { st1 with errorItem := some m }
    | .panicked m =>
      update_output_publish .panic { st1 with errorItem := some m }

/-! ## Association-list helpers

`CellTypeMaxIndex` items and the `cell_counters` argument are key/value
maps (`HashMap`-backed in the code); they are modelled as association
lists.  `insertA` replaces, `eraseA` removes the key. -/

/-- Map lookup on an association list. -/
def lookupA {α β : Type} [DecidableEq α] : List (α × β) → α → Option β
  | [], _ => none
  | (k, v) :: rest, key => if k = key then some v else lookupA rest key

/-- Map removal on an association list. -/
def eraseA {α β : Type} [DecidableEq α] : List (α × β) → α → List (α × β)
  | [], _ => []
  | (k, v) :: rest, key =>
    if k = key then eraseA rest key else (k, v) :: eraseA rest key

/-- Map insert-or-replace on an association list. -/
def insertA {α β : Type} [DecidableEq α] (l : List (α × β)) (key : α)
    (v : β) : List (α × β) :=
  (key, v) :: eraseA l key

/-! ## `task_execution_completed` (`backend/mod.rs`) -/

/-- The items of one task that `task_execution_completed` touches.  The
`AggregatedDirtyContainerCount` bookkeeping and the `AggregateRoot`
`all_clean_event` notification at the very end of the function propagate
through the aggregation queue to other tasks and are outside this per-task
state. -/
structure CompletionState where
  inProgress : Option InProgressState
  /-- `CellTypeMaxIndex` items: cell type → highest live cell index -/
  cellTypeMaxIndex : List (Nat × Nat)
  /-- keys of the stored `CellData` items -/
  cellData : List CellId
  /-- `CellDependent { cell, task }` reverse edges -/
  cellDependent : List (CellId × Nat)
  outdatedChild : List Nat
  outdatedCollectible : List (Nat × Int)
  outdatedCellDependency : List CellRef
  outdatedOutputDependency : List Nat
  outdatedCollectiblesDependency : List Nat
  dirty : Option DirtyState
deriving DecidableEq, Repr

/-- `OutdatedEdge` (`operation/cleanup_old_edges.rs` interface), as built
by `task_execution_completed`. -/
inductive OutdatedEdge where
  | child (task : Nat)
  | collectible (ref : Nat) (count : Int)
  | cellDependency (target : CellRef)
  | outputDependency (target : Nat)
  | collectiblesDependency (target : Nat)
  | removedCellDependent (task : Nat)
deriving DecidableEq, Repr

/-- First loop over `cell_counters`: reconcile each reported
`(cell_type, max_index)` against the stored `CellTypeMaxIndex` items
(`residual` starts as a copy of the stored map and loses every type seen in
the counters; `maxItems` is the stored map being updated in place;
`removed` accumulates `(type, lo, hi)` ranges of dropped cell indices). -/
def processCellCounters :
    List (Nat × Nat) → List (Nat × Nat) → List (Nat × Nat) →
      List (Nat × Nat × Nat) →
      List (Nat × Nat) × List (Nat × Nat) × List (Nat × Nat × Nat)
  | [], residual, maxItems, removed => (residual, maxItems, removed)
  | (t, m) :: rest, residual, maxItems, removed =>
    match lookupA residual t with
    | some oldMax =>
      let residual1 := eraseA residual t
      if oldMax ≠ m then
        processCellCounters rest residual1 (insertA maxItems t m)
          (if m < oldMax then removed ++ [(t, m + 1, oldMax)] else removed)
      else
        processCellCounters rest residual1 maxItems removed
    | none =>
      processCellCounters rest residual (insertA maxItems t m) removed

/-- Second loop: every stored `CellTypeMaxIndex` type the counters did not
mention is removed outright; all its cell indices `0..=old_max` are
dropped. -/
def removeResidualCounters :
    List (Nat × Nat) → List (Nat × Nat) → List (Nat × Nat × Nat) →
      List (Nat × Nat) × List (Nat × Nat × Nat)
  | [], maxItems, removed => (maxItems, removed)
  | (t, oldMax) :: rest, maxItems, removed =>
    removeResidualCounters rest (eraseA maxItems t)
      (removed ++ [(t, 0, oldMax)])

/-- Whether cell `c` falls into one of the removed `(type, lo, hi)`
ranges. -/
def cellRemoved (removed : List (Nat × Nat × Nat)) (c : CellId) : Bool :=
  removed.any fun r =>
    decide (r.1 = c.typeId ∧ r.2.1 ≤ c.index ∧ c.index ≤ r.2.2)

/-- The outdated-edges sweep of `task_execution_completed` (the
`iter_all` branch): every `Outdated*` item becomes an `OutdatedEdge`, and
every `CellDependent` edge on a removed cell becomes a
`RemovedCellDependent` edge. -/
def collectOldEdges (st : CompletionState)
    (removed : List (Nat × Nat × Nat)) : List OutdatedEdge :=
  st.outdatedChild.map .child ++
    st.outdatedCollectible.map (fun p => .collectible p.1 p.2) ++
    st.outdatedCellDependency.map .cellDependency ++
    st.outdatedOutputDependency.map .outputDependency ++
    st.outdatedCollectiblesDependency.map .collectiblesDependency ++
    (st.cellDependent.filter fun p => cellRemoved removed p.1).map
      (fun p => .removedCellDependent p.2)

/-- Outcome of `task_execution_completed`: the task's state, the `bool`
return value (`true` requests an immediate reschedule of a stale task), the
outdated edges handed to `CleanupOldEdgesOperation`, and the removed cell
ranges. -/
structure CompletionOutcome where
  state : CompletionState
  rescheduled : Bool
  oldEdges : List OutdatedEdge
  removedCells : List (Nat × Nat × Nat)
deriving DecidableEq, Repr

/-- The non-stale body of `task_execution_completed`: reconcile the cell
counters, drop the removed cells' data, collect the outdated edges (which
`CleanupOldEdgesOperation` then removes, invalidating the readers of
removed cells), remove `InProgress` and set the new dirty state (`None`,
or session-scoped clean when the task declared `session_dependent`). -/
def task_execution_completed_inner (session : Nat)
    (cellCounters : List (Nat × Nat)) (sessionDependent : Bool)
    (st : CompletionState) : CompletionOutcome :=
  let r1 := processCellCounters cellCounters st.cellTypeMaxIndex
    st.cellTypeMaxIndex []
  let r2 := removeResidualCounters r1.1 r1.2.1 r1.2.2
  let newCellData := st.cellData.filter fun c => ¬cellRemoved r2.2 c
  let oldEdges := collectOldEdges st r2.2
  let newDirty : Option DirtyState :=
    if sessionDependent then some ⟨some session⟩ else none
  ⟨{ st with
      inProgress := none
      cellTypeMaxIndex := r2.1
      cellData := newCellData
      dirty := newDirty }, false, oldEdges, r2.2⟩

/-- `TurboTasksBackendInner::task_execution_completed` (`backend/mod.rs`).
A task that is not `InProgress::InProgress` makes the code panic (`none`
here).  A stale task is put back into `InProgress::Scheduled` with the same
`done_event` and the function returns `true`; otherwise the non-stale body
runs and the function returns `false`.  (The second `if stale` of the
source re-checks the local variable captured before the first check and is
therefore unreachable.) -/
def task_execution_completed (session : Nat)
    (cellCounters : List (Nat × Nat)) (st : CompletionState) :
    Option CompletionOutcome :=
  match st.inProgress with
  | some (.inProgress stale _ doneEvent sessionDependent) =>
    if stale then
      some ⟨{ st with inProgress := some (.scheduled doneEvent) }, true,
        [], []⟩
    else
      some (task_execution_completed_inner session cellCounters
        sessionDependent st)
  | _ => none

/-- Modelled from the spec: the set of tasks `CleanupOldEdgesOperation`
(not among the provided sources) invalidates — the tasks of the
`RemovedCellDependent` edges, each marked dirty via `make_task_dirty`
("readers of removed cells are invalidated"). -/
def cleanup_invalidated_tasks (edges : List OutdatedEdge) : List Nat :=
  edges.filterMap fun e =>
    match e with
    | .removedCellDependent t => some t
    | _ => none

/-- C2: when the new result equals the stored `Output` item (both
`TaskOutput` of the same task, or both `TaskCell` of the same task and
cell), `UpdateOutputOperation::run` returns early: the `Output` item is not
rewritten, no dependent task is handed to the dirty-marking continuation,
no child is checked, the task's `Dirty` state is untouched and no
aggregation job is pushed. -/
theorem update_output_same_output_early_return (result : TaskResult)
    (st : OutputUpdateState)
    (h : (∃ t, result = .okOutput t ∧ st.output = some (.output t)) ∨
         ∃ t c, result = .okCell t c ∧ st.output = some (.cell ⟨t, c⟩)) :
    (UpdateOutputOperation_run result st).earlyReturn = true ∧
    (UpdateOutputOperation_run result st).state.output = st.output ∧
    (UpdateOutputOperation_run result st).dependentTasksToDirty = [] ∧
    (UpdateOutputOperation_run result st).childrenToCheck = [] ∧
    (UpdateOutputOperation_run result st).selfDirtyJobPushed = false ∧
    (UpdateOutputOperation_run result st).state.dirty = st.dirty := by
  unfold UpdateOutputOperation_run
  split
  · exact ⟨rfl, rfl, rfl, rfl, rfl, rfl⟩
  · rcases h with ⟨t, hr, ho⟩ | ⟨t, c, hr, ho⟩ <;> subst hr <;>
      simp only [] <;> rw [if_pos (by simpa using ho)] <;>
      exact ⟨rfl, rfl, rfl, rfl, rfl, rfl⟩

/-- C2 witness: re-computing a task to the identical `TaskCell` output. -/
theorem update_output_same_output_early_return_witness :
    let st : OutputUpdateState :=
      { inProgress := none, errorItem := some 1,
        output := some (.cell ⟨4, ⟨0, 2⟩⟩), outputDependent := [8, 9],
        children := [5], dirty := none }
    (UpdateOutputOperation_run (.okCell 4 ⟨0, 2⟩) st).earlyReturn = true ∧
    (UpdateOutputOperation_run (.okCell 4 ⟨0, 2⟩) st).state.output =
      st.output ∧
    (UpdateOutputOperation_run (.okCell 4 ⟨0, 2⟩) st).dependentTasksToDirty
      = [] ∧
    (UpdateOutputOperation_run (.okCell 4 ⟨0, 2⟩) st).childrenToCheck = [] ∧
    (UpdateOutputOperation_run (.okCell 4 ⟨0, 2⟩) st).selfDirtyJobPushed
      = false ∧
    (UpdateOutputOperation_run (.okCell 4 ⟨0, 2⟩) st).state.dirty =
      st.dirty := by
  intro st
  exact update_output_same_output_early_return (.okCell 4 ⟨0, 2⟩) st
    (Or.inr ⟨4, ⟨0, 2⟩, rfl, rfl⟩)

/-- C3 (stale-execution rule): (1) invalidating a task that holds an
`InProgress::InProgress` state (`make_task_dirty`, as run by
`InvalidateOperation`) sets its `stale` flag; (2) `UpdateOutputOperation::
run` on a task whose in-progress state is stale returns without storing
the new output (the state is untouched); (3) `task_execution_completed` on
a stale task puts it back into `InProgress::Scheduled` with the same
`done_event` and returns `true`. -/
theorem stale_execution_rule
    (v : TaskDirtyView) (stale₀ once sd : Bool) (e : Nat)
    (result : TaskResult) (st2 : OutputUpdateState)
    (session : Nat) (counters : List (Nat × Nat)) (st3 : CompletionState)
    (onceB sdB : Bool) (eB : Nat) (onceC sdC : Bool) (eC : Nat)
    (hv : v.inProgress = some (.inProgress stale₀ once e sd))
    (h2 : st2.inProgress = some (.inProgress true onceB eB sdB))
    (h3 : st3.inProgress = some (.inProgress true onceC eC sdC)) :
    (make_task_dirty v).1.inProgress = some (.inProgress true once e sd) ∧
    ((UpdateOutputOperation_run result st2).earlyReturn = true ∧
      (UpdateOutputOperation_run result st2).state = st2) ∧
    task_execution_completed session counters st3 =
      some ⟨{ st3 with inProgress := some (.scheduled eC) }, true, [], []⟩
    := by
  refine ⟨?_, ⟨?_, ?_⟩, ?_⟩
  · unfold make_task_dirty make_task_dirty_internal
    rw [hv]
    simp only [if_true]
    split <;> simp
  · unfold UpdateOutputOperation_run
    rw [h2]
  · unfold UpdateOutputOperation_run
    rw [h2]
  · unfold task_execution_completed
    rw [h3]
    rfl

/-- C3 witness: a concrete in-progress task is invalidated (stale set),
its stale result is discarded, and completion reschedules it. -/
theorem stale_execution_rule_witness :
    let v : TaskDirtyView :=
      { inProgress := some (.inProgress false false 3 false), dirty := none }
    let st2 : OutputUpdateState :=
      { inProgress := some (.inProgress true false 3 false),
        errorItem := none, output := some (.output 1),
        outputDependent := [7], children := [], dirty := none }
    let st3 : CompletionState :=
      { inProgress := some (.inProgress true false 3 false),
        cellTypeMaxIndex := [], cellData := [], cellDependent := [],
        outdatedChild := [], outdatedCollectible := [],
        outdatedCellDependency := [], outdatedOutputDependency := [],
        outdatedCollectiblesDependency := [], dirty := none }
    (make_task_dirty v).1.inProgress =
      some (.inProgress true false 3 false) ∧
    ((UpdateOutputOperation_run (.okOutput 2) st2).earlyReturn = true ∧
      (UpdateOutputOperation_run (.okOutput 2) st2).state = st2) ∧
    task_execution_completed 0 [] st3 =
      some ⟨{ st3 with inProgress := some (.scheduled 3) }, true, [], []⟩
    := by
  intro v st2 st3
  exact stale_execution_rule v false false false 3 (.okOutput 2) st2 0 []
    st3 false false 3 false false 3 rfl rfl rfl

/-! ### Association-list lemmas -/

theorem lookupA_eraseA_self {α β : Type} [DecidableEq α]
    (l : List (α × β)) (k : α) :
    lookupA (eraseA l k) k = none := by
  induction l with
  | nil => rfl
  | cons p rest ih =>
    obtain ⟨a, b⟩ := p
    by_cases hak : a = k
    · simpa [eraseA, hak] using ih
    · simpa [eraseA, lookupA, hak] using ih

theorem lookupA_eraseA_ne {α β : Type} [DecidableEq α]
    (l : List (α × β)) (k T : α) (h : k ≠ T) :
    lookupA (eraseA l k) T = lookupA l T := by
  induction l with
  | nil => rfl
  | cons p rest ih =>
    obtain ⟨a, b⟩ := p
    by_cases hak : a = k
    · subst hak
      simpa [eraseA, lookupA, h] using ih
    · by_cases haT : a = T
      · subst haT
        simp [eraseA, lookupA, hak, Ne.symm h]
      · simpa [eraseA, lookupA, hak, haT] using ih

theorem lookupA_insertA_self {α β : Type} [DecidableEq α]
    (l : List (α × β)) (k : α) (v : β) :
    lookupA (insertA l k v) k = some v := by
  simp [insertA, lookupA]

theorem lookupA_insertA_ne {α β : Type} [DecidableEq α]
    (l : List (α × β)) (k : α) (v : β) (T : α)
    (h : k ≠ T) : lookupA (insertA l k v) T = lookupA l T := by
  simp [insertA, lookupA, h, lookupA_eraseA_ne l k T h]

theorem mem_of_lookupA {α β : Type} [DecidableEq α]
    (l : List (α × β)) (T : α) (v : β)
    (h : lookupA l T = some v) : (T, v) ∈ l := by
  induction l with
  | nil => simp [lookupA] at h
  | cons p rest ih =>
    obtain ⟨a, b⟩ := p
    by_cases haT : a = T
    · subst haT
      have hb : b = v := by simpa [lookupA] using h
      subst hb
      exact List.mem_cons_self _ _
    · simp only [lookupA, if_neg haT] at h
      exact List.mem_cons_of_mem _ (ih h)

theorem lookupA_eq_none {α β : Type} [DecidableEq α]
    (l : List (α × β)) (T : α) :
    lookupA l T = none ↔ ∀ p ∈ l, p.1 ≠ T := by
  induction l with
  | nil => simp [lookupA]
  | cons p rest ih =>
    obtain ⟨k, v⟩ := p
    by_cases hk : k = T
    · subst hk
      simp [lookupA]
    · simp [lookupA, hk, ih]

/-! ### Behaviour of the two counter-reconciliation loops -/

/-- Types the counters do not mention pass through the first loop
untouched, and already-recorded removal ranges are preserved. -/
theorem processCellCounters_not_mem (T : Nat)
    (counters : List (Nat × Nat)) :
    ∀ (residual maxItems : List (Nat × Nat))
      (removed : List (Nat × Nat × Nat)),
    (∀ p ∈ counters, p.1 ≠ T) →
    lookupA (processCellCounters counters residual maxItems removed).2.1 T
        = lookupA maxItems T ∧
    lookupA (processCellCounters counters residual maxItems removed).1 T
        = lookupA residual T ∧
    ∀ x ∈ removed,
      x ∈ (processCellCounters counters residual maxItems removed).2.2 := by
  induction counters with
  | nil =>
    intro residual maxItems removed _
    exact ⟨rfl, rfl, fun x hx => hx⟩
  | cons p rest ih =>
    obtain ⟨t, m⟩ := p
    intro residual maxItems removed h
    have ht : t ≠ T := h (t, m) (List.mem_cons_self _ _)
    have hrest : ∀ p ∈ rest, p.1 ≠ T :=
      fun q hq => h q (List.mem_cons_of_mem _ hq)
    rcases hl : lookupA residual t with _ | oldMax
    · simp only [processCellCounters, hl]
      obtain ⟨h1, h2, h3⟩ :=
        ih residual (insertA maxItems t m) removed hrest
      exact ⟨h1.trans (lookupA_insertA_ne _ _ _ _ ht), h2, h3⟩
    · simp only [processCellCounters, hl]
      by_cases hne : oldMax ≠ m
      · rw [if_pos hne]
        obtain ⟨h1, h2, h3⟩ := ih (eraseA residual t)
          (insertA maxItems t m)
          (if m < oldMax then removed ++ [(t, m + 1, oldMax)] else removed)
          hrest
        refine ⟨h1.trans (lookupA_insertA_ne _ _ _ _ ht),
          h2.trans (lookupA_eraseA_ne _ _ _ ht), fun x hx => h3 x ?_⟩
        by_cases hlt : m < oldMax <;> simp [hlt, hx]
      · rw [if_neg hne]
        obtain ⟨h1, h2, h3⟩ :=
          ih (eraseA residual t) maxItems removed hrest
        exact ⟨h1, h2.trans (lookupA_eraseA_ne _ _ _ ht), h3⟩

/-- A type the counters report with value `m` while the store holds `M`:
after the first loop the stored max is `m`, the type has left the residual
map, and when `m < M` the range `(m+1)..=M` was recorded for removal. -/
theorem processCellCounters_found (T m M : Nat)
    (counters : List (Nat × Nat)) :
    ∀ (residual maxItems : List (Nat × Nat))
      (removed : List (Nat × Nat × Nat)),
    (counters.map Prod.fst).Nodup →
    (T, m) ∈ counters →
    lookupA residual T = some M →
    lookupA maxItems T = some M →
    lookupA (processCellCounters counters residual maxItems removed).2.1 T
        = some m ∧
    lookupA (processCellCounters counters residual maxItems removed).1 T
        = none ∧
    (m < M →
      (T, m + 1, M) ∈
        (processCellCounters counters residual maxItems removed).2.2) ∧
    ∀ x ∈ removed,
      x ∈ (processCellCounters counters residual maxItems removed).2.2 := by
  induction counters with
  | nil =>
    intro residual maxItems removed _ hmem
    exact absurd hmem (List.not_mem_nil _)
  | cons p rest ih =>
    obtain ⟨t, mh⟩ := p
    intro residual maxItems removed hnd hmem hres hmax
    have hmap : (t :: rest.map Prod.fst).Nodup := by
      rw [List.map_cons] at hnd
      exact hnd
    have hndT : t ∉ rest.map Prod.fst := (List.nodup_cons.mp hmap).1
    have hnd' : (rest.map Prod.fst).Nodup := (List.nodup_cons.mp hmap).2
    by_cases htT : t = T
    · subst htT
      have hm : mh = m := by
        rcases List.mem_cons.mp hmem with heq | hmem'
        · exact (congrArg Prod.snd heq).symm
        · exact absurd (List.mem_map_of_mem Prod.fst hmem') hndT
      subst hm
      have hrestT : ∀ p ∈ rest, p.1 ≠ t := by
        intro q hq hq1
        exact hndT (hq1 ▸ List.mem_map_of_mem Prod.fst hq)
      simp only [processCellCounters, hres]
      by_cases hMm : M ≠ mh
      · rw [if_pos hMm]
        obtain ⟨h1, h2, h3⟩ := processCellCounters_not_mem t rest
          (eraseA residual t) (insertA maxItems t mh)
          (if mh < M then removed ++ [(t, mh + 1, M)] else removed) hrestT
        refine ⟨by rw [h1, lookupA_insertA_self],
          by rw [h2, lookupA_eraseA_self], fun hlt => h3 _ ?_,
          fun x hx => h3 x ?_⟩
        · simp [hlt]
        · by_cases hlt : mh < M <;> simp [hlt, hx]
      · push_neg at hMm
        rw [if_neg (by simpa using hMm)]
        obtain ⟨h1, h2, h3⟩ := processCellCounters_not_mem t rest
          (eraseA residual t) maxItems removed hrestT
        exact ⟨by rw [h1, hmax, hMm], by rw [h2, lookupA_eraseA_self],
          fun hlt => absurd hlt (by omega), h3⟩
    · have hmem' : (T, m) ∈ rest := by
        rcases List.mem_cons.mp hmem with heq | h
        · exact absurd (congrArg Prod.fst heq).symm htT
        · exact h
      rcases hl : lookupA residual t with _ | oldMax
      · simp only [processCellCounters, hl]
        exact ih residual (insertA maxItems t mh) removed hnd' hmem' hres
          (by rw [lookupA_insertA_ne _ _ _ _ htT]; exact hmax)
      · simp only [processCellCounters, hl]
        by_cases hne : oldMax ≠ mh
        · rw [if_pos hne]
          obtain ⟨h1, h2, h3, h4⟩ := ih (eraseA residual t)
            (insertA maxItems t mh)
            (if mh < oldMax then removed ++ [(t, mh + 1, oldMax)]
              else removed) hnd' hmem'
            (by rw [lookupA_eraseA_ne _ _ _ htT]; exact hres)
            (by rw [lookupA_insertA_ne _ _ _ _ htT]; exact hmax)
          refine ⟨h1, h2, h3, fun x hx => h4 x ?_⟩
          by_cases hlt : mh < oldMax <;> simp [hlt, hx]
        · rw [if_neg hne]
          exact ih (eraseA residual t) maxItems removed hnd' hmem'
            (by rw [lookupA_eraseA_ne _ _ _ htT]; exact hres) hmax

/-- Removal ranges survive the residual loop. -/
theorem removeResidual_mono (residual : List (Nat × Nat)) :
    ∀ (maxItems : List (Nat × Nat)) (removed : List (Nat × Nat × Nat)),
    ∀ x ∈ removed,
      x ∈ (removeResidualCounters residual maxItems removed).2 := by
  induction residual with
  | nil => intro maxItems removed x hx; exact hx
  | cons p rest ih =>
    obtain ⟨t, M⟩ := p
    intro maxItems removed x hx
    simp only [removeResidualCounters]
    exact ih _ _ x (by simp [hx])

/-- The residual loop only erases: a type already absent stays absent. -/
theorem removeResidual_lookup_none (T : Nat)
    (residual : List (Nat × Nat)) :
    ∀ (maxItems : List (Nat × Nat)) (removed : List (Nat × Nat × Nat)),
    lookupA maxItems T = none →
    lookupA (removeResidualCounters residual maxItems removed).1 T
      = none := by
  induction residual with
  | nil => intro maxItems removed h; exact h
  | cons p rest ih =>
    obtain ⟨t, M⟩ := p
    intro maxItems removed h
    simp only [removeResidualCounters]
    apply ih
    by_cases htT : t = T
    · subst htT; exact lookupA_eraseA_self _ _
    · rw [lookupA_eraseA_ne _ _ _ htT]; exact h

/-- Types outside the residual map pass through the residual loop
untouched. -/
theorem removeResidual_not_mem (T : Nat) (residual : List (Nat × Nat)) :
    ∀ (maxItems : List (Nat × Nat)) (removed : List (Nat × Nat × Nat)),
    (∀ p ∈ residual, p.1 ≠ T) →
    lookupA (removeResidualCounters residual maxItems removed).1 T
      = lookupA maxItems T := by
  induction residual with
  | nil => intro maxItems removed _; rfl
  | cons p rest ih =>
    obtain ⟨t, M⟩ := p
    intro maxItems removed h
    have ht : t ≠ T := h (t, M) (List.mem_cons_self _ _)
    simp only [removeResidualCounters]
    rw [ih _ _ (fun q hq => h q (List.mem_cons_of_mem _ hq))]
    exact lookupA_eraseA_ne _ _ _ ht

/-- A type the counters omitted: the residual loop erases its
`CellTypeMaxIndex` item and records the removal of all indices
`0..=old_max`. -/
theorem removeResidual_mem (T M : Nat) (residual : List (Nat × Nat)) :
    ∀ (maxItems : List (Nat × Nat)) (removed : List (Nat × Nat × Nat)),
    (T, M) ∈ residual →
    lookupA (removeResidualCounters residual maxItems removed).1 T
        = none ∧
    (T, 0, M) ∈ (removeResidualCounters residual maxItems removed).2 := by
  induction residual with
  | nil =>
    intro maxItems removed hmem
    exact absurd hmem (List.not_mem_nil _)
  | cons p rest ih =>
    obtain ⟨t, Mh⟩ := p
    intro maxItems removed hmem
    rcases List.mem_cons.mp hmem with heq | hmem'
    · obtain ⟨h1, h2⟩ := Prod.mk.injEq _ _ _ _ ▸ heq
      subst h1; subst h2
      simp only [removeResidualCounters]
      refine ⟨removeResidual_lookup_none T rest _ _
        (lookupA_eraseA_self _ _), removeResidual_mono rest _ _ _ ?_⟩
      simp
    · simp only [removeResidualCounters]
      exact ih _ _ hmem'

/-- A removal range covering a cell makes `cellRemoved` true. -/
theorem cellRemoved_of_mem (removed : List (Nat × Nat × Nat))
    (t lo hi : Nat) (c : CellId) (hmem : (t, lo, hi) ∈ removed)
    (ht : c.typeId = t) (hlo : lo ≤ c.index) (hhi : c.index ≤ hi) :
    cellRemoved removed c = true := by
  simp only [cellRemoved, List.any_eq_true]
  exact ⟨(t, lo, hi), hmem, by simp [ht, hlo, hhi]⟩

/-- A cell covered by a removal range is dropped by the data-removal
filter, whatever the rest of the list holds. -/
theorem not_mem_filter_of_cellRemoved (cells : List CellId)
    (removed : List (Nat × Nat × Nat)) (c : CellId)
    (h : cellRemoved removed c = true) :
    c ∉ cells.filter fun x => ¬cellRemoved removed x := by
  intro hmem
  have := (List.mem_filter.mp hmem).2
  simp [h] at this

/-- A `CellDependent` edge on a removed cell shows up as a
`RemovedCellDependent` outdated edge, and its task in the set of tasks
`CleanupOldEdgesOperation` invalidates. -/
theorem removedCellDependent_collected (st : CompletionState)
    (removed : List (Nat × Nat × Nat)) (c : CellId) (r : Nat)
    (hmem : (c, r) ∈ st.cellDependent)
    (h : cellRemoved removed c = true) :
    OutdatedEdge.removedCellDependent r ∈ collectOldEdges st removed ∧
    r ∈ cleanup_invalidated_tasks (collectOldEdges st removed) := by
  have hedge : OutdatedEdge.removedCellDependent r ∈
      collectOldEdges st removed := by
    simp only [collectOldEdges, List.mem_append]
    refine Or.inr ?_
    simp only [List.mem_map]
    exact ⟨(c, r), List.mem_filter.mpr ⟨hmem, by simp [h]⟩, rfl⟩
  refine ⟨hedge, ?_⟩
  simp only [cleanup_invalidated_tasks, List.mem_filterMap]
  exact ⟨.removedCellDependent r, hedge, rfl⟩

/-- C6 (cell-type shrink): on a non-stale completion, for a cell type `T`
whose stored `CellTypeMaxIndex` is `M`, when the reported counters carry a
strictly smaller maximum `m` (or omit `T`), afterwards `CellTypeMaxIndex[T]`
is `m` (resp. removed), every `CellData` item of type `T` with index in
`m+1..=M` (resp. `0..=M`) is removed, and every task holding a
`CellDependent` edge on one of the removed cells is collected as a
`RemovedCellDependent` outdated edge and is among the tasks
`CleanupOldEdgesOperation` invalidates. -/
theorem task_execution_completed_cell_shrink
    (session T M : Nat) (counters : List (Nat × Nat))
    (st : CompletionState) (once sd : Bool) (e : Nat)
    (hip : st.inProgress = some (.inProgress false once e sd))
    (hnd : (counters.map Prod.fst).Nodup)
    (hmax : lookupA st.cellTypeMaxIndex T = some M) :
    task_execution_completed session counters st =
      some (task_execution_completed_inner session counters sd st) ∧
    (∀ m, lookupA counters T = some m → m < M →
      lookupA (task_execution_completed_inner session counters sd
          st).state.cellTypeMaxIndex T = some m ∧
      (∀ i, m < i → i ≤ M →
        CellId.mk T i ∉ (task_execution_completed_inner session counters sd
          st).state.cellData) ∧
      ∀ c r, (c, r) ∈ st.cellDependent → c.typeId = T → m < c.index →
        c.index ≤ M →
        OutdatedEdge.removedCellDependent r ∈
          (task_execution_completed_inner session counters sd st).oldEdges ∧
        r ∈ cleanup_invalidated_tasks
          (task_execution_completed_inner session counters sd st).oldEdges) ∧
    (lookupA counters T = none →
      lookupA (task_execution_completed_inner session counters sd
          st).state.cellTypeMaxIndex T = none ∧
      (∀ i, i ≤ M →
        CellId.mk T i ∉ (task_execution_completed_inner session counters sd
          st).state.cellData) ∧
      ∀ c r, (c, r) ∈ st.cellDependent → c.typeId = T → c.index ≤ M →
        OutdatedEdge.removedCellDependent r ∈
          (task_execution_completed_inner session counters sd st).oldEdges ∧
        r ∈ cleanup_invalidated_tasks
          (task_execution_completed_inner session counters sd st).oldEdges)
    := by
  refine ⟨?_, ?_, ?_⟩
  · unfold task_execution_completed
    rw [hip]
    rfl
  · intro m hm hmM
    have hmemC : (T, m) ∈ counters := mem_of_lookupA _ _ _ hm
    obtain ⟨p1, p2, p3, -⟩ := processCellCounters_found T m M counters
      st.cellTypeMaxIndex st.cellTypeMaxIndex [] hnd hmemC hmax hmax
    have hresT := (lookupA_eq_none _ _).mp p2
    have q1 : lookupA (task_execution_completed_inner session counters sd
        st).state.cellTypeMaxIndex T = some m := by
      show lookupA (removeResidualCounters _ _ _).1 T = some m
      rw [removeResidual_not_mem T _ _ _ hresT]
      exact p1
    have hrem : (T, m + 1, M) ∈ (task_execution_completed_inner session
        counters sd st).removedCells :=
      removeResidual_mono _ _ _ _ (p3 hmM)
    refine ⟨q1, fun i hmi hiM => ?_, fun c r hdep hcT hmc hcM => ?_⟩
    · exact not_mem_filter_of_cellRemoved _ _ _
        (cellRemoved_of_mem _ _ _ _ _ hrem rfl
          (show m + 1 ≤ i by omega) (show i ≤ M from hiM))
    · exact removedCellDependent_collected st _ c r hdep
        (cellRemoved_of_mem _ _ _ _ _ hrem hcT (by omega) (by omega))
  · intro hnone
    have hcntT := (lookupA_eq_none _ _).mp hnone
    obtain ⟨p1, p2, -⟩ := processCellCounters_not_mem T counters
      st.cellTypeMaxIndex st.cellTypeMaxIndex [] hcntT
    have hmemR : (T, M) ∈ (processCellCounters counters st.cellTypeMaxIndex
        st.cellTypeMaxIndex []).1 :=
      mem_of_lookupA _ _ _ (p2.trans hmax)
    obtain ⟨q1, q2⟩ := removeResidual_mem T M _
      (processCellCounters counters st.cellTypeMaxIndex
        st.cellTypeMaxIndex []).2.1
      (processCellCounters counters st.cellTypeMaxIndex
        st.cellTypeMaxIndex []).2.2 hmemR
    refine ⟨q1, fun i hiM => ?_, fun c r hdep hcT hcM => ?_⟩
    · exact not_mem_filter_of_cellRemoved _ _ _
        (cellRemoved_of_mem _ _ _ _ _ q2 rfl (Nat.zero_le _)
          (show i ≤ M from hiM))
    · exact removedCellDependent_collected st _ c r hdep
        (cellRemoved_of_mem _ _ _ _ _ q2 hcT (Nat.zero_le _) hcM)

/-- C6 witness: a task that previously emitted cells of type `1` with
indices `0..=10` re-executes and reports only `0..=5`; the reader `99` of
cell `(1,7)` is collected for invalidation and `CellTypeMaxIndex[1]`
becomes `5`. -/
theorem task_execution_completed_cell_shrink_witness :
    let st : CompletionState :=
      { inProgress := some (.inProgress false false 3 false),
        cellTypeMaxIndex := [(1, 10)],
        cellData := [⟨1, 3⟩, ⟨1, 7⟩, ⟨1, 10⟩],
        cellDependent := [(⟨1, 7⟩, 99)],
        outdatedChild := [], outdatedCollectible := [],
        outdatedCellDependency := [], outdatedOutputDependency := [],
        outdatedCollectiblesDependency := [], dirty := none }
    lookupA (task_execution_completed_inner 0 [(1, 5)] false
        st).state.cellTypeMaxIndex 1 = some 5 ∧
    CellId.mk 1 7 ∉ (task_execution_completed_inner 0 [(1, 5)] false
        st).state.cellData ∧
    99 ∈ cleanup_invalidated_tasks
      (task_execution_completed_inner 0 [(1, 5)] false st).oldEdges := by
  intro st
  obtain ⟨-, hsome, -⟩ := task_execution_completed_cell_shrink 0 1 10
    [(1, 5)] st false false 3 rfl (by decide) rfl
  obtain ⟨h1, h2, h3⟩ := hsome 5 rfl (by decide)
  exact ⟨h1, h2 7 (by decide) (by decide),
    (h3 ⟨1, 7⟩ 99 (List.mem_cons_self _ _) rfl (by decide) (by decide)).2⟩

/-! ## Read path: `try_read_task_cell` (`backend/mod.rs`)

As for the output read, dependency recording on the reader task
(`CellDependent`/`CellDependency`) touches only the reader's storage and is
outside the single-task state. -/

/-- The items of one task that `try_read_task_cell` touches. -/
structure CellReadState where
  /-- keys of the stored `CellData` items -/
  cellData : List CellId
  cellTypeMaxIndex : List (Nat × Nat)
  /-- cells with an `InProgressCell` item -/
  inProgressCell : List CellId
  /-- whether an `InProgress` item exists (`task.add(new_scheduled)`
  inserts one and reports whether it was absent) -/
  hasInProgress : Bool
deriving DecidableEq, Repr

/-- What `try_read_task_cell` hands back to the caller. -/
inductive ReadCellResult where
  /-- `Ok(Ok(content))`: the stored cell content. -/
  | value
  /-- `Err(...)`: the `bail!` paths — the cell no longer exists. -/
  | hardError
  /-- `Ok(Err(listener))` on an `InProgressCell` event. -/
  | listener
deriving DecidableEq, Repr

/-- Outcome of a cell read. -/
structure ReadCellOutcome where
  result : ReadCellResult
  state : CellReadState
  scheduled : Bool
deriving DecidableEq, Repr

/-- `TurboTasksBackendInner::try_read_task_cell` (`backend/mod.rs`):

1. if a `CellData` item for the cell exists, return its content;
2. otherwise, when no `CellTypeMaxIndex` item for `cell.type_id` exists, or
   `cell.index` exceeds it, `bail!` — a hard error;
3. when an `InProgressCell` item for the cell exists, return a listener on
   its event;
4. otherwise create the `InProgressCell` item, return a listener on its
   event and — when the `task.add(new_scheduled)` actually inserted an
   `InProgress` item — schedule the task. -/
def try_read_task_cell (cell : CellId) (st : CellReadState) :
    ReadCellOutcome :=
  if cell ∈ st.cellData then ⟨.value, st, false⟩
  else
    match lookupA st.cellTypeMaxIndex cell.typeId with
    | none => ⟨.hardError, st, false⟩
    | some maxId =>
      if maxId < cell.index then ⟨.hardError, st, false⟩
      else if cell ∈ st.inProgressCell then ⟨.listener, st, false⟩
      else
        let st1 := { st with inProgressCell := cell :: st.inProgressCell }
        if st1.hasInProgress then ⟨.listener, st1, false⟩
        else ⟨.listener, { st1 with hasInProgress := true }, true⟩

/-- C4: for a read of a cell holding no `CellData`, the call is a hard
error exactly when the cell index is out of range (no `CellTypeMaxIndex`
item for the type — which makes the right-hand side vacuously true — or
`cell.index > CellTypeMaxIndex[cell.type]`); within range it returns a
listener, an `InProgressCell` item for the cell exists afterwards, and a
task with no in-progress state and no pre-existing `InProgressCell` gets
scheduled. -/
theorem try_read_task_cell_missing_data (cell : CellId)
    (st : CellReadState) (h : cell ∉ st.cellData) :
    ((try_read_task_cell cell st).result = .hardError ↔
      ∀ maxId, lookupA st.cellTypeMaxIndex cell.typeId = some maxId →
        maxId < cell.index) ∧
    ∀ maxId, lookupA st.cellTypeMaxIndex cell.typeId = some maxId →
      cell.index ≤ maxId →
      (try_read_task_cell cell st).result = .listener ∧
      cell ∈ (try_read_task_cell cell st).state.inProgressCell ∧
      (cell ∉ st.inProgressCell → st.hasInProgress = false →
        (try_read_task_cell cell st).scheduled = true) := by
  unfold try_read_task_cell
  rw [if_neg h]
  rcases hl : lookupA st.cellTypeMaxIndex cell.typeId with _ | maxId
  · exact ⟨⟨fun _ maxId hm => by simp at hm, fun _ => rfl⟩,
      fun maxId hm => by simp at hm⟩
  · refine ⟨⟨fun hres maxId2 hm => ?_, fun hall => ?_⟩,
      fun maxId2 hm hle => ?_⟩
    · obtain rfl : maxId = maxId2 := Option.some.inj hm
      by_contra hlt
      push_neg at hlt
      simp only at hres
      rw [if_neg (by omega)] at hres
      by_cases hip : cell ∈ st.inProgressCell
      · rw [if_pos hip] at hres
        simp at hres
      · rw [if_neg hip] at hres
        by_cases hp : st.hasInProgress = true <;> simp [hp] at hres
    · have hlt := hall maxId rfl
      simp only
      rw [if_pos hlt]
    · obtain rfl : maxId = maxId2 := Option.some.inj hm
      simp only
      rw [if_neg (by omega)]
      by_cases hip : cell ∈ st.inProgressCell
      · rw [if_pos hip]
        exact ⟨rfl, hip, fun hnip _ => absurd hip hnip⟩
      · rw [if_neg hip]
        by_cases hp : st.hasInProgress = true <;> simp [hp]

/-- C4 witness: reading the missing cell `(1, 2)` while
`CellTypeMaxIndex[1] = 5`: a listener is returned and the idle task is
scheduled; and the hard-error characterization evaluated there. -/
theorem try_read_task_cell_missing_data_witness :
    let st : CellReadState :=
      { cellData := [⟨1, 0⟩], cellTypeMaxIndex := [(1, 5)],
        inProgressCell := [], hasInProgress := false }
    ((try_read_task_cell ⟨1, 2⟩ st).result = .hardError ↔
      ∀ maxId, lookupA st.cellTypeMaxIndex 1 = some maxId →
        maxId < 2) ∧
    ((try_read_task_cell ⟨1, 2⟩ st).result = .listener ∧
      CellId.mk 1 2 ∈ (try_read_task_cell ⟨1, 2⟩ st).state.inProgressCell ∧
      (try_read_task_cell ⟨1, 2⟩ st).scheduled = true) := by
  intro st
  obtain ⟨h1, h2⟩ := try_read_task_cell_missing_data ⟨1, 2⟩ st (by decide)
  obtain ⟨h3, h4, h5⟩ := h2 5 rfl (by decide)
  exact ⟨h1, h3, h4, h5 (by decide) rfl⟩

/-! ## `UpdateCellOperation::run` (`backend/operation/update_cell.rs`) -/

/-- The items of one task that `UpdateCellOperation::run` touches
(cell contents are modelled as `Nat` payloads). -/
structure CellUpdateState where
  cellData : List (CellId × Nat)
  /-- cells with an `InProgressCell` item (their events are notified and
  the items removed) -/
  inProgressCell : List CellId
  /-- the `Dirty` item; `has_key(Dirty)` is `isSome` (a session-scoped
  clean mark still counts as a stored item) -/
  dirty : Option DirtyState
  /-- `CellDependent { cell, task }` reverse edges -/
  cellDependent : List (CellId × Nat)
deriving DecidableEq, Repr

/-- Outcome of `UpdateCellOperation::run`: the task's state and the tasks
handed to `InvalidateOperation::run`. -/
structure CellUpdateOutcome where
  state : CellUpdateState
  invalidated : List Nat
deriving DecidableEq, Repr

/-- `UpdateCellOperation::run` (`update_cell.rs`): replace (or, for empty
content, remove) the cell's `CellData`; notify and drop a pending
`InProgressCell` item; then, when the write was a pure recomputation
(`old_content.is_none() && !task.has_key(Dirty)`), stop; otherwise collect
every `CellDependent` reader of this cell and run `InvalidateOperation` on
them. -/
def UpdateCellOperation_run (cell : CellId) (content : Option Nat)
    (st : CellUpdateState) : CellUpdateOutcome :=
  let oldContent := lookupA st.cellData cell
  let newData := match content with
    | some v => insertA st.cellData cell v
    | none => eraseA st.cellData cell
  let st1 := { st with
      cellData := newData
      inProgressCell := st.inProgressCell.filter (· ≠ cell) }
  if oldContent = none ∧ st.dirty = none then ⟨st1, []⟩
  else ⟨st1, (st.cellDependent.filter fun p => p.1 = cell).map Prod.snd⟩

/-- C7, counterexample to the claim as stated: a **clean** task (no `Dirty`
item) whose cell already holds content.  The claim demands that a clean
task invalidates no cell-dependent task, but `recomputed` additionally
requires the old content to be absent, so the reader `42` is
invalidated. -/
theorem update_cell_clean_task_still_invalidates :
    let st : CellUpdateState :=
      { cellData := [(⟨1, 0⟩, 5)], inProgressCell := [], dirty := none,
        cellDependent := [(⟨1, 0⟩, 42)] }
    st.dirty = none ∧
      (UpdateCellOperation_run ⟨1, 0⟩ (some 7) st).invalidated = [42] := by
  exact ⟨rfl, rfl⟩

/-- C7 (amended): `UpdateCellOperation::run` replaces the cell's data with
the new content (removing it when the content is empty); when the task is
clean **and the cell held no previous data** (a recomputation refilling a
dropped cell) no cell-dependent task is invalidated; otherwise — the task
dirty, or previous data present — every task with a `CellDependent` edge on
that cell is invalidated. -/
theorem update_cell_replace_and_invalidate (cell : CellId)
    (content : Option Nat) (st : CellUpdateState) :
    lookupA (UpdateCellOperation_run cell content st).state.cellData cell
        = content ∧
    (lookupA st.cellData cell = none → st.dirty = none →
      (UpdateCellOperation_run cell content st).invalidated = []) ∧
    (lookupA st.cellData cell ≠ none ∨ st.dirty ≠ none →
      ∀ r, (cell, r) ∈ st.cellDependent →
        r ∈ (UpdateCellOperation_run cell content st).invalidated) := by
  refine ⟨?_, ?_, ?_⟩
  · simp only [UpdateCellOperation_run]
    split <;>
      rcases content with _ | v <;>
      simp [lookupA_eraseA_self, lookupA_insertA_self]
  · intro h1 h2
    simp only [UpdateCellOperation_run]
    rw [if_pos ⟨h1, h2⟩]
  · intro h r hr
    have hcond : ¬(lookupA st.cellData cell = none ∧ st.dirty = none) := by
      rcases h with h | h
      · exact fun hc => h hc.1
      · exact fun hc => h hc.2
    simp only [UpdateCellOperation_run]
    rw [if_neg hcond]
    show r ∈ (st.cellDependent.filter fun p => p.1 = cell).map Prod.snd
    simp only [List.mem_map]
    exact ⟨(cell, r), List.mem_filter.mpr ⟨hr, by simp⟩, rfl⟩

/-- C7 witness for the amended claim: a dirty task updating a cell with one
reader — the data is replaced and the reader is invalidated; and a clean
task refilling a dropped cell invalidates nobody. -/
theorem update_cell_replace_and_invalidate_witness :
    let st : CellUpdateState :=
      { cellData := [], inProgressCell := [], dirty := some ⟨none⟩,
        cellDependent := [(⟨1, 0⟩, 42)] }
    let stClean : CellUpdateState :=
      { cellData := [], inProgressCell := [], dirty := none,
        cellDependent := [(⟨1, 0⟩, 42)] }
    lookupA (UpdateCellOperation_run ⟨1, 0⟩ (some 7) st).state.cellData
        ⟨1, 0⟩ = some 7 ∧
    42 ∈ (UpdateCellOperation_run ⟨1, 0⟩ (some 7) st).invalidated ∧
    (UpdateCellOperation_run ⟨1, 0⟩ (some 7) stClean).invalidated = [] := by
  intro st stClean
  refine ⟨(update_cell_replace_and_invalidate ⟨1, 0⟩ (some 7) st).1,
    (update_cell_replace_and_invalidate ⟨1, 0⟩ (some 7) st).2.2
      (Or.inr (by decide)) 42 (List.mem_cons_self _ _),
    (update_cell_replace_and_invalidate ⟨1, 0⟩ (some 7) stClean).2.1
      rfl rfl⟩

/-! ## `get_or_create_transient_task` (`backend/mod.rs`) -/

/-- Modelled from the spec: `TaskId::is_transient` (the `TaskId` type lives
in the `turbo-tasks` core crate, not among the provided sources) — a
`TaskId` is a 32-bit identifier whose top bit marks transient tasks. -/
def TaskId_is_transient (id : Nat) : Bool :=
  2 ^ 31 ≤ id % 2 ^ 32

/-- `TurboTasksBackendInner::get_or_create_transient_task`
(`backend/mod.rs`): a persistent parent (transient bit unset) panics
(`none` here) with "Calling transient function … from persistent function …
is not allowed"; otherwise the forward task cache is consulted and a hit
reuses its `TaskId`, a miss takes a fresh id from the transient id factory
(the lost-insert race of `try_insert` cannot arise in this sequential
embedding). -/
def get_or_create_transient_task (taskCache : List (Nat × Nat))
    (taskType parent freshId : Nat) : Option Nat :=
  if ¬TaskId_is_transient parent then none
  else
    match lookupA taskCache taskType with
    | some taskId => some taskId
    | none => some freshId

/-- C8: a persistent parent makes `get_or_create_transient_task` fail with
the documented hard error, and a transient parent always gets a `TaskId`
back. -/
theorem transient_call_rule (taskCache : List (Nat × Nat))
    (taskType parent freshId : Nat) :
    (TaskId_is_transient parent = false ↔
      get_or_create_transient_task taskCache taskType parent freshId
        = none) ∧
    (TaskId_is_transient parent = true →
      ∃ id, get_or_create_transient_task taskCache taskType parent freshId
        = some id) := by
  unfold get_or_create_transient_task
  by_cases h : TaskId_is_transient parent = true
  · rw [if_neg (by simp [h])]
    refine ⟨⟨fun hf => ?_, fun hn => ?_⟩, fun _ => ?_⟩
    · rw [hf] at h
      cases h
    · rcases hl : lookupA taskCache taskType with _ | taskId <;>
        rw [hl] at hn <;> simp at hn
    · rcases hl : lookupA taskCache taskType with _ | taskId
      · exact ⟨freshId, rfl⟩
      · exact ⟨taskId, rfl⟩
  · have hf : TaskId_is_transient parent = false := by
      revert h
      cases TaskId_is_transient parent <;> simp
    rw [if_pos (by simp [hf])]
    exact ⟨⟨fun _ => rfl, fun _ => hf⟩,
      fun ht => by rw [ht] at hf; cases hf⟩

/-- C8 witness: parent `2^31` (transient bit set) gets an id; parent `5`
(persistent) hits the hard error. -/
theorem transient_call_rule_witness :
    (∃ id, get_or_create_transient_task [] 0 (2 ^ 31) 9 = some id) ∧
    get_or_create_transient_task [] 0 5 9 = none := by
  exact ⟨(transient_call_rule [] 0 (2 ^ 31) 9).2 (by decide),
    (transient_call_rule [] 0 5 9).1.mp (by decide)⟩

/-! ## Snapshot coordinator (`backend/mod.rs`) -/

/-- The three sharded in-memory logs the snapshot drains (records are
modelled as `Nat` identifiers; the shard structure is immaterial to what is
drained and saved). -/
structure SnapshotLogs where
  persistedTaskCacheLog : List Nat
  persistedStorageMetaLog : List Nat
  persistedStorageDataLog : List Nat
deriving DecidableEq, Repr

/-- Outcome of one snapshot attempt. -/
structure SnapshotOutcome where
  /-- `Some(new_items)` on success, `None` when `save_snapshot` failed -/
  result : Option Bool
  /-- the backend's in-memory logs after the attempt (the `take()` calls
  leave them empty) -/
  logs : SnapshotLogs
  /-- records durably written by `save_snapshot` during this attempt -/
  persisted : List Nat
deriving DecidableEq, Repr

/-- `TurboTasksBackendInner::snapshot` (`backend/mod.rs`): drain (`take`)
the three in-memory logs; when all are empty report `Some(false)` (no new
items) without calling the store; otherwise hand the drained shards to
`save_snapshot` — on success report `Some(true)`, on error print the error
and return `None`.  The drained logs are local values: the error path
drops them, and the in-memory logs stay empty either way.  `saveOk` stands
for the success of the backing store. -/
def snapshot (saveOk : Bool) (logs : SnapshotLogs) : SnapshotOutcome :=
  let drainedCache := logs.persistedTaskCacheLog
  let drainedMeta := logs.persistedStorageMetaLog
  let drainedData := logs.persistedStorageDataLog
  if drainedCache.isEmpty ∧ drainedMeta.isEmpty ∧ drainedData.isEmpty then
    ⟨some false, ⟨[], [], []⟩, []⟩
  else if saveOk then
    ⟨some true, ⟨[], [], []⟩, drainedCache ++ drainedMeta ++ drainedData⟩
  else
    ⟨none, ⟨[], [], []⟩, []⟩

/-- What the snapshot backend job does after one snapshot attempt. -/
inductive SnapshotJobStep where
  /-- the loop continues: a further snapshot attempt will run -/
  | anotherAttempt
  /-- `BACKEND_JOB_FOLLOW_UP_SNAPSHOT` is scheduled and the job returns -/
  | scheduleFollowUp
deriving DecidableEq, Repr

/-- The decision the snapshot loop of `run_backend_job` (`backend/mod.rs`)
takes after an attempt: `None` (persisting failed) falls to the bottom of
the `loop` and retries; `Some(true)` (`new_data`) `continue`s; only
`Some(false)` schedules the follow-up job and returns. -/
def run_backend_job_step : Option Bool → SnapshotJobStep
  | none => .anotherAttempt
  | some true => .anotherAttempt
  | some false => .scheduleFollowUp

/-- C5, counterexample to the claim as stated: one drained task-cache
record and a failing `save_snapshot`.  The claim demands the in-memory
logs be retained so that no drained record is lost; instead the attempt
leaves every in-memory log empty and persists nothing — record `1` is
gone. -/
theorem snapshot_error_drops_drained_records :
    (snapshot false ⟨[1], [], []⟩).result = none ∧
    (snapshot false ⟨[1], [], []⟩).logs = ⟨[], [], []⟩ ∧
    (snapshot false ⟨[1], [], []⟩).persisted = [] := by
  exact ⟨rfl, rfl, rfl⟩

/-- C5 (amended): when `save_snapshot` fails on a non-empty drain, the
snapshot attempt is abandoned (`None`, nothing persisted) and the job loop
schedules another attempt — but the drained in-memory logs are dropped,
not retained: the in-memory logs are empty afterwards, so the drained
records are lost. -/
theorem snapshot_error_abandons_and_retries (logs : SnapshotLogs)
    (hne : ¬(logs.persistedTaskCacheLog.isEmpty ∧
        logs.persistedStorageMetaLog.isEmpty ∧
        logs.persistedStorageDataLog.isEmpty)) :
    (snapshot false logs).result = none ∧
    (snapshot false logs).persisted = [] ∧
    run_backend_job_step (snapshot false logs).result = .anotherAttempt ∧
    (snapshot false logs).logs = ⟨[], [], []⟩ := by
  unfold snapshot
  rw [if_neg hne]
  exact ⟨rfl, rfl, rfl, rfl⟩

/-- C5 witness: the amended theorem at the concrete failing attempt. -/
theorem snapshot_error_abandons_and_retries_witness :
    (snapshot false ⟨[], [2, 3], []⟩).result = none ∧
    (snapshot false ⟨[], [2, 3], []⟩).persisted = [] ∧
    run_backend_job_step (snapshot false ⟨[], [2, 3], []⟩).result =
      .anotherAttempt ∧
    (snapshot false ⟨[], [2, 3], []⟩).logs = ⟨[], [], []⟩ :=
  snapshot_error_abandons_and_retries ⟨[], [2, 3], []⟩ (by decide)

/-! ## Startup-cache record codec (`database/startup_cache.rs`) -/

/-- `KeySpace` (`database/key_value_database.rs` interface), with the byte
tags used by the startup-cache file. -/
inductive KeySpace where
  | infra
  | taskMeta
  | taskData
  | forwardTaskCache
  | reverseTaskCache
deriving DecidableEq, Repr

/-- The byte written for each key space by `write_key_value_pair`. -/
def KeySpace.toByte : KeySpace → Nat
  | .infra => 0
  | .taskMeta => 1
  | .taskData => 2
  | .forwardTaskCache => 3
  | .reverseTaskCache => 4

/-- The key-space decoding of `read_key_value_pair`; an unknown tag is the
`Err("Invalid key space")` path. -/
def KeySpace.ofByte : Nat → Option KeySpace
  | 0 => some .infra
  | 1 => some .taskMeta
  | 2 => some .taskData
  | 3 => some .forwardTaskCache
  | 4 => some .reverseTaskCache
  | _ => none

/-- `u32::to_be_bytes`. -/
def beBytes32 (n : Nat) : List Nat :=
  [n / 2 ^ 24 % 256, n / 2 ^ 16 % 256, n / 2 ^ 8 % 256, n % 256]

/-- `u32::from_be_bytes`. -/
def fromBeBytes32 (b3 b2 b1 b0 : Nat) : Nat :=
  ((b3 * 256 + b2) * 256 + b1) * 256 + b0

/-- `write_key_value_pair` (`startup_cache.rs`): one record is the
key-space byte, the key length as `u32` big-endian (`key_len as u32`
truncates modulo `2^32`), the value length likewise, then the raw key and
value bytes; the Rust function returns `9 + key_len + value_len`. -/
def write_key_value_pair (ks : KeySpace) (key value : List Nat) :
    List Nat :=
  ks.toByte ::
    (beBytes32 (key.length % 2 ^ 32) ++ beBytes32 (value.length % 2 ^ 32) ++
      key ++ value)

/-- `read_key_value_pair` (`startup_cache.rs`): read the key-space byte
(unknown tag: error), two big-endian `u32` lengths, then slice the key and
the value out of the buffer, returning them with the advanced position.
Out-of-bounds slicing (a Rust panic) is `none` here. -/
def read_key_value_pair (buffer : List Nat) (pos : Nat) :
    Option (KeySpace × List Nat × List Nat × Nat) :=
  match buffer.drop pos with
  | ksb :: k3 :: k2 :: k1 :: k0 :: v3 :: v2 :: v1 :: v0 :: rest =>
    match KeySpace.ofByte ksb with
    | none => none
    | some ks =>
      let keyLen := fromBeBytes32 k3 k2 k1 k0
      let valueLen := fromBeBytes32 v3 v2 v1 v0
      if keyLen + valueLen ≤ rest.length then
        some (ks, rest.take keyLen, (rest.drop keyLen).take valueLen,
          pos + 9 + keyLen + valueLen)
      else none
  | _ => none

/-- The startup-cache file body: the records of `commit`, written
back-to-back. -/
def writeAllPairs (pairs : List (KeySpace × List Nat × List Nat)) :
    List Nat :=
  (pairs.map fun p => write_key_value_pair p.1 p.2.1 p.2.2).flatten

/-- The restore loop of `StartupCacheLayer::new`:
`while pos < restored.len()` read one record and advance; `fuel` bounds the
number of iterations (each successful read advances `pos` by at least 9,
so any `fuel ≥` the record count suffices). -/
def readAllPairs :
    Nat → List Nat → Nat → Option (List (KeySpace × List Nat × List Nat))
  | 0, buffer, pos => if pos < buffer.length then none else some []
  | fuel + 1, buffer, pos =>
    if pos < buffer.length then
      match read_key_value_pair buffer pos with
      | none => none
      | some (ks, key, value, pos1) =>
        (readAllPairs fuel buffer pos1).map fun rest =>
          (ks, key, value) :: rest
    else some []

theorem KeySpace.ofByte_toByte (ks : KeySpace) :
    KeySpace.ofByte ks.toByte = some ks := by
  cases ks <;> rfl

theorem write_key_value_pair_length (ks : KeySpace) (key value : List Nat) :
    (write_key_value_pair ks key value).length =
      9 + key.length + value.length := by
  simp [write_key_value_pair, beBytes32]
  omega

theorem fromBeBytes32_beBytes32 (n : Nat) (h : n < 2 ^ 32) :
    fromBeBytes32 (n / 2 ^ 24 % 256) (n / 2 ^ 16 % 256) (n / 2 ^ 8 % 256)
      (n % 256) = n := by
  unfold fromBeBytes32
  omega

/-- Reading at a position whose suffix starts with one written record
yields exactly that record and the position just past it. -/
theorem read_write_key_value_pair (ks : KeySpace) (key value rest
    buffer : List Nat) (pos : Nat)
    (hbuf : buffer.drop pos = write_key_value_pair ks key value ++ rest)
    (hk : key.length < 2 ^ 32) (hv : value.length < 2 ^ 32) :
    read_key_value_pair buffer pos =
      some (ks, key, value, pos + 9 + key.length + value.length) := by
  unfold read_key_value_pair
  rw [hbuf]
  simp only [write_key_value_pair, beBytes32, Nat.mod_eq_of_lt hk,
    Nat.mod_eq_of_lt hv, List.cons_append, List.append_assoc,
    List.nil_append]
  rw [KeySpace.ofByte_toByte]
  simp only [fromBeBytes32_beBytes32 _ hk, fromBeBytes32_beBytes32 _ hv]
  rw [if_pos (by simp only [List.length_append]; omega)]
  have htake : (key ++ (value ++ rest)).take key.length = key :=
    List.take_left key (value ++ rest)
  have hdropk : (key ++ (value ++ rest)).drop key.length = value ++ rest :=
    List.drop_left key (value ++ rest)
  rw [htake, hdropk, List.take_left value rest]

/-- The whole-file round trip, generalized over the start position: when
the suffix of the buffer at `pos` is exactly the written records, the
restore loop returns them. -/
theorem readAllPairs_writeAllPairs_from
    (pairs : List (KeySpace × List Nat × List Nat)) :
    ∀ (fuel pos : Nat) (buffer : List Nat),
    pairs.length ≤ fuel →
    buffer.drop pos = writeAllPairs pairs →
    (∀ p ∈ pairs, p.2.1.length < 2 ^ 32 ∧ p.2.2.length < 2 ^ 32) →
    readAllPairs fuel buffer pos = some pairs := by
  induction pairs with
  | nil =>
    intro fuel pos buffer _ hbuf _
    have hpos : buffer.length ≤ pos := by
      rw [← List.drop_eq_nil_iff, hbuf]
      rfl
    cases fuel <;> simp [readAllPairs, Nat.not_lt.mpr hpos]
  | cons p ps ih =>
    intro fuel pos buffer hfuel hbuf hlen
    obtain ⟨ks, key, value⟩ := p
    cases fuel with
    | zero => simp at hfuel
    | succ fuel =>
      have hwab : writeAllPairs ((ks, key, value) :: ps) =
          write_key_value_pair ks key value ++ writeAllPairs ps := by
        simp [writeAllPairs]
      rw [hwab] at hbuf
      have hk := (hlen (ks, key, value) (List.mem_cons_self _ _)).1
      have hv := (hlen (ks, key, value) (List.mem_cons_self _ _)).2
      have hpos : pos < buffer.length := by
        by_contra hge
        have : buffer.drop pos = [] :=
          List.drop_eq_nil_iff.mpr (Nat.le_of_not_lt hge)
        rw [this] at hbuf
        have := congrArg List.length hbuf
        simp only [List.length_nil, List.length_append,
          write_key_value_pair_length] at this
        omega
      have hread := read_write_key_value_pair ks key value
        (writeAllPairs ps) buffer pos hbuf hk hv
      have hdrop : buffer.drop (pos + 9 + key.length + value.length) =
          writeAllPairs ps := by
        have h1 : buffer.drop (pos + 9 + key.length + value.length) =
            (buffer.drop pos).drop (9 + key.length + value.length) := by
          rw [List.drop_drop]
          congr 1
          omega
        rw [h1, hbuf]
        exact List.drop_left' (write_key_value_pair_length ks key value)
      simp only [readAllPairs, if_pos hpos, hread]
      rw [ih fuel (pos + 9 + key.length + value.length) buffer
        (by simpa using Nat.le_of_succ_le_succ hfuel) hdrop
        (fun q hq => hlen q (List.mem_cons_of_mem _ hq))]
      rfl

/-- C9: writing a sequence of `(keyspace, key, value)` triples produces a
flat record sequence in which every record occupies exactly
`9 + key_len + value_len` bytes, and — for keys and values shorter than
`2^32` bytes, so that the `u32` length fields are exact — parsing the
buffer from position `0` with repeated `read_key_value_pair` (any
iteration budget at least the number of records) yields the same triples
in the same order. -/
theorem startup_cache_roundtrip
    (pairs : List (KeySpace × List Nat × List Nat))
    (h : ∀ p ∈ pairs, p.2.1.length < 2 ^ 32 ∧ p.2.2.length < 2 ^ 32) :
    (∀ p ∈ pairs, (write_key_value_pair p.1 p.2.1 p.2.2).length =
      9 + p.2.1.length + p.2.2.length) ∧
    ∀ fuel, pairs.length ≤ fuel →
      readAllPairs fuel (writeAllPairs pairs) 0 = some pairs := by
  refine ⟨fun p _ => write_key_value_pair_length p.1 p.2.1 p.2.2,
    fun fuel hfuel => ?_⟩
  exact readAllPairs_writeAllPairs_from pairs fuel 0 (writeAllPairs pairs)
    hfuel rfl h

/-- A key whose length is a multiple of `2^32`: the truncated `u32` length
field reads back as `0`, so the parsed key is empty whatever was
written. -/
theorem read_of_zero_mod_key (key : List Nat)
    (h : key.length % 2 ^ 32 = 0) :
    read_key_value_pair (writeAllPairs [(.infra, key, [])]) 0 =
      some (.infra, [], [], 9) := by
  have hw : writeAllPairs [(.infra, key, [])] =
      0 :: 0 :: 0 :: 0 :: 0 :: 0 :: 0 :: 0 :: 0 :: key := by
    simp only [writeAllPairs, List.map_cons, List.map_nil,
      List.flatten_cons, List.flatten_nil, List.append_nil,
      write_key_value_pair, h, beBytes32, List.length_nil,
      List.cons_append, List.nil_append]
    norm_num [KeySpace.toByte]
  unfold read_key_value_pair
  rw [hw, List.drop_zero]
  simp only [KeySpace.ofByte]
  have h0 : fromBeBytes32 0 0 0 0 = 0 := by norm_num [fromBeBytes32]
  rw [h0]
  rw [if_pos (by simp)]
  simp

/-- C9, counterexample to the claim as stated: a key of `2^32` bytes.
`key_len as u32` truncates the length field to `0`, so parsing the written
record yields the empty key — not the original triple. -/
theorem startup_cache_truncation :
    read_key_value_pair
        (writeAllPairs [(.infra, List.replicate (2 ^ 32) 0, [])]) 0 =
      some (.infra, [], [], 9) ∧
    List.replicate (2 ^ 32) (0 : Nat) ≠ [] := by
  constructor
  · exact read_of_zero_mod_key (List.replicate (2 ^ 32) 0)
      (by rw [List.length_replicate]; exact Nat.mod_self _)
  · intro h
    have := congrArg List.length h
    simp only [List.length_replicate, List.length_nil] at this
    norm_num at this

/-- C9 witness: a two-record file round-trips. -/
theorem startup_cache_roundtrip_witness :
    let pairs : List (KeySpace × List Nat × List Nat) :=
      [(.taskMeta, [7, 8], [9]), (.infra, [], [255, 0])]
    (∀ p ∈ pairs, (write_key_value_pair p.1 p.2.1 p.2.2).length =
      9 + p.2.1.length + p.2.2.length) ∧
    readAllPairs 2 (writeAllPairs pairs) 0 = some pairs := by
  intro pairs
  obtain ⟨h1, h2⟩ := startup_cache_roundtrip pairs (by decide)
  exact ⟨h1, h2 2 (by decide)⟩

end TurboTasks
